import Mathlib

/-!
Verification of the RofiManager program (src/main.go).

The program is a small settings manager: an INI-backed configuration with
three string-valued keys (enabled modes, enabled scripts, enabled theme),
menu option builders that prefix names with a checkbox marker, toggle
workflows over those menus, and copy-into-managed-directory operations for
scripts and themes.  This file shallowly embeds those parts and proves the
specification claims about them.

String values are modelled through the character list underlying a Lean
String (String.data), which matches Go's byte strings on the ASCII data the
program manipulates.
-/

namespace RofiManager

/-- Embeds Go strings.Split(s, sep) for a one-character separator, at the
character level: split a character list at every occurrence of c. -/
def splitChar (c : Char) : List Char → List (List Char)
  | [] => [[]]
  | x :: xs => if x = c then [] :: splitChar c xs else consHead x (splitChar c xs)
where
  /-- Prepend a character to the first piece of a split result. -/
  consHead (x : Char) : List (List Char) → List (List Char)
    | [] => [[x]]
    | p :: ps => (x :: p) :: ps

/-- Embeds Go strings.Join(elems, ",") at the character level. -/
def joinComma : List (List Char) → List Char
  | [] => []
  | [p] => p
  | p :: q :: ps => p ++ ',' :: joinComma (q :: ps)

theorem splitChar_ne_nil (c : Char) (l : List Char) : splitChar c l ≠ [] := by
  induction l with
  | nil => simp [splitChar]
  | cons x xs ih =>
    rw [splitChar]
    split
    · simp
    · cases h : splitChar c xs with
      | nil => exact absurd h ih
      | cons p ps => simp [splitChar.consHead]

theorem splitChar_not_mem {c : Char} {l : List Char} (h : c ∉ l) :
    splitChar c l = [l] := by
  induction l with
  | nil => rfl
  | cons x xs ih =>
    have hx : ¬ x = c := fun hxc => h (hxc ▸ List.mem_cons_self x xs)
    have hxs : c ∉ xs := fun hc => h (List.mem_cons_of_mem x hc)
    rw [splitChar, if_neg hx, ih hxs, splitChar.consHead]

theorem splitChar_append_cons {c : Char} {p : List Char} (r : List Char)
    (h : c ∉ p) : splitChar c (p ++ c :: r) = p :: splitChar c r := by
  induction p with
  | nil => simp [splitChar]
  | cons x xs ih =>
    have hx : ¬ x = c := fun hxc => h (hxc ▸ List.mem_cons_self x xs)
    have hxs : c ∉ xs := fun hc => h (List.mem_cons_of_mem x hc)
    rw [List.cons_append, splitChar, if_neg hx, ih hxs, splitChar.consHead]

theorem not_mem_of_mem_splitChar {c : Char} {l p : List Char}
    (h : p ∈ splitChar c l) : c ∉ p := by
  induction l generalizing p with
  | nil =>
    rw [splitChar] at h
    rcases List.mem_singleton.mp h with rfl
    simp
  | cons x xs ih =>
    rw [splitChar] at h
    by_cases hx : x = c
    · rw [if_pos hx] at h
      rcases List.mem_cons.mp h with rfl | h
      · simp
      · exact ih h
    · rw [if_neg hx] at h
      obtain ⟨q, qs, hq⟩ := List.exists_cons_of_ne_nil (splitChar_ne_nil c xs)
      rw [hq, splitChar.consHead] at h
      rcases List.mem_cons.mp h with rfl | h
      · intro hmem
        rcases List.mem_cons.mp hmem with hcx | hcq
        · exact hx hcx.symm
        · exact ih (hq ▸ List.mem_cons_self q qs) hcq
      · exact ih (hq ▸ List.mem_cons_of_mem q h)

theorem splitChar_joinComma :
    ∀ ls : List (List Char), ls ≠ [] → (∀ p ∈ ls, ',' ∉ p) →
      splitChar ',' (joinComma ls) = ls := by
  intro ls
  induction ls with
  | nil => intro h; exact absurd rfl h
  | cons p tl ih =>
    intro _ hmem
    cases tl with
    | nil =>
      rw [joinComma]
      exact splitChar_not_mem (hmem p (List.mem_cons_self p []))
    | cons q ps =>
      rw [joinComma]
      rw [splitChar_append_cons _ (hmem p (List.mem_cons_self p _))]
      rw [ih (by simp) (fun r hr => hmem r (List.mem_cons_of_mem p hr))]

/-- Embeds Go strings.TrimSpace at the character level: drop whitespace
from the front, then from the back. -/
def trimChars (l : List Char) : List Char :=
  ((l.dropWhile Char.isWhitespace).reverse.dropWhile Char.isWhitespace).reverse

/-- Embeds Go strings.TrimSpace on strings. -/
def goTrim (s : String) : String := ⟨trimChars s.data⟩

theorem dropWhile_idem (p : Char → Bool) (l : List Char) :
    (l.dropWhile p).dropWhile p = l.dropWhile p := by
  induction l with
  | nil => rfl
  | cons a l ih =>
    rw [List.dropWhile_cons]
    split
    · exact ih
    · next h => rw [List.dropWhile_cons_of_neg h]

theorem dropWhile_of_trimmed_right (p : Char → Bool) (l : List Char)
    (h : l.dropWhile p = l) :
    ((l.reverse.dropWhile p).reverse).dropWhile p = (l.reverse.dropWhile p).reverse := by
  generalize hr : (l.reverse.dropWhile p).reverse = r
  have hpre : r <+: l := by
    rw [← hr, ← List.reverse_suffix, List.reverse_reverse]
    exact List.dropWhile_suffix p
  cases r with
  | nil => simp
  | cons a t =>
    have hpa : p a = false := by
      obtain ⟨s, hs⟩ := hpre
      have h3 := List.head?_dropWhile_not p l
      rw [h, ← hs] at h3
      simpa using h3
    rw [List.dropWhile_cons_of_neg (by simp [hpa])]

theorem trimChars_idem (l : List Char) : trimChars (trimChars l) = trimChars l := by
  unfold trimChars
  have h1 : (l.dropWhile Char.isWhitespace).dropWhile Char.isWhitespace
      = l.dropWhile Char.isWhitespace := dropWhile_idem _ l
  have h2 := dropWhile_of_trimmed_right Char.isWhitespace
    (l.dropWhile Char.isWhitespace) h1
  rw [h2]
  rw [List.reverse_reverse, dropWhile_idem]

theorem mem_trimChars {a : Char} {l : List Char} (h : a ∈ trimChars l) : a ∈ l := by
  unfold trimChars at h
  rw [List.mem_reverse] at h
  have h1 := (List.dropWhile_sublist (l := (l.dropWhile Char.isWhitespace).reverse)
    Char.isWhitespace).subset h
  rw [List.mem_reverse] at h1
  exact (List.dropWhile_sublist Char.isWhitespace).subset h1

/-- Embeds the comma-separated-value parsing shared by getEnabledModes and
getEnabledScripts: split the stored string on commas, trim whitespace from
each piece, and keep the non-empty pieces. -/
def parseCSV (v : String) : List String :=
  (((splitChar ',' v.data).map (fun l => (⟨l⟩ : String))).map goTrim).filter
    (fun s => s != "")

/-- Embeds strings.Join(values, ",") as used by setEnabledModes and
setEnabledScripts to serialise a list of names. -/
def goJoin (l : List String) : String := ⟨joinComma (l.map String.data)⟩

/-- A name survives the CSV round trip unchanged: it is non-empty, is
unchanged by whitespace trimming, and contains no comma. -/
def ValidName (s : String) : Prop :=
  s ≠ "" ∧ goTrim s = s ∧ ',' ∉ s.data

instance (s : String) : Decidable (ValidName s) := by
  unfold ValidName; infer_instance

theorem mk_data (s : String) : (⟨s.data⟩ : String) = s := rfl

theorem parseCSV_goJoin (l : List String) (h : ∀ x ∈ l, ValidName x) :
    parseCSV (goJoin l) = l := by
  cases l with
  | nil => rfl
  | cons a tl =>
    unfold parseCSV goJoin
    rw [mk_data]
    rw [splitChar_joinComma ((a :: tl).map String.data) (by simp)
      (by
        intro p hp
        rw [List.mem_map] at hp
        obtain ⟨x, hx, rfl⟩ := hp
        exact (h x hx).2.2)]
    rw [List.map_map]
    have hid : ∀ x ∈ a :: tl, (goTrim ∘ fun ld => (⟨ld⟩ : String)) (String.data x) = x := by
      intro x hx
      simpa [mk_data] using (h x hx).2.1
    rw [List.map_map, List.map_congr_left (by
      intro x hx
      exact hid x hx)]
    rw [List.map_id']
    rw [List.filter_eq_self.mpr (by
      intro x hx
      simpa using (h x hx).1)]

theorem validName_of_mem_parseCSV {v : String} {x : String}
    (h : x ∈ parseCSV v) : ValidName x := by
  unfold parseCSV at h
  rw [List.mem_filter] at h
  obtain ⟨hmem, hne⟩ := h
  rw [List.mem_map] at hmem
  obtain ⟨y, hy, rfl⟩ := hmem
  rw [List.mem_map] at hy
  obtain ⟨p, hp, rfl⟩ := hy
  refine ⟨by simpa using hne, ?_, ?_⟩
  · show goTrim (goTrim ⟨p⟩) = goTrim ⟨p⟩
    unfold goTrim
    exact congrArg (fun l => (⟨l⟩ : String)) (trimChars_idem p)
  · intro hc
    exact not_mem_of_mem_splitChar hp (mem_trimChars hc)

/-! The settings store.  The Go RofiManager keeps an in-memory ini.File
(rm.config) with three sections, each holding one key named enabled, and a
config file on disk at rm.configPath.  IniFile below is the content of such
an ini file; RMState pairs the on-disk file (none when absent) with the
in-memory one. -/

/-- Content of the config.conf ini file: the modes.enabled, scripts.enabled
and theme.enabled values. -/
structure IniFile where
  modesEnabled : String
  scriptsEnabled : String
  themeEnabled : String
deriving DecidableEq

/-- The manager state: the on-disk config file (none when absent) and the
in-memory parsed config. -/
structure RMState where
  disk : Option IniFile
  config : IniFile
deriving DecidableEq

/-- The defaults both ensureConfigDirs and loadConfig write when the file
is missing: modes run,drun,window, no scripts, no theme. -/
def defaultIni : IniFile :=
  { modesEnabled := "run,drun,window", scriptsEnabled := "", themeEnabled := "" }

/-- Embeds ensureConfigDirs: when the config file does not exist, write the
default config to disk (directory creation has no observable effect here). -/
def ensureConfigDirs (st : RMState) : RMState :=
  match st.disk with
  | some _ => st
  | none => { st with disk := some defaultIni }

/-- Embeds loadConfig: parse the on-disk file into memory; when that fails
(file absent), fall back to the defaults and write them to disk. -/
def loadConfig (st : RMState) : RMState :=
  match st.disk with
  | some cfg => { st with config := cfg }
  | none => { disk := some defaultIni, config := defaultIni }

/-- Embeds saveConfig: write the in-memory config to disk. -/
def saveConfig (st : RMState) : RMState := { st with disk := some st.config }

/-- Embeds getEnabledModes: parse the comma-separated modes value. -/
def getEnabledModes (st : RMState) : List String :=
  parseCSV st.config.modesEnabled

/-- Embeds setEnabledModes: store the comma-joined list and save. -/
def setEnabledModes (st : RMState) (modes : List String) : RMState :=
  saveConfig { st with config := { st.config with modesEnabled := goJoin modes } }

/-- Embeds getEnabledScripts: parse the comma-separated scripts value. -/
def getEnabledScripts (st : RMState) : List String :=
  parseCSV st.config.scriptsEnabled

/-- Embeds setEnabledScripts: store the comma-joined list and save. -/
def setEnabledScripts (st : RMState) (scripts : List String) : RMState :=
  saveConfig { st with config := { st.config with scriptsEnabled := goJoin scripts } }

/-- Embeds getEnabledTheme: the raw stored theme value. -/
def getEnabledTheme (st : RMState) : String := st.config.themeEnabled

/-- Embeds setEnabledTheme: store the theme value and save. -/
def setEnabledTheme (st : RMState) (theme : String) : RMState :=
  saveConfig { st with config := { st.config with themeEnabled := theme } }

/-! Menu options and the toggle workflows. -/

/-- The fixed mode vocabulary rm.allModes. -/
def allModes : List String := ["run", "drun", "window", "ssh", "filebrowser", "key"]

/-- Embeds the option formatting Sprintf "%s %s" mark name, with mark equal
to "[x]" when the entry is enabled and "[ ]" otherwise. -/
def checkOption (enabled : Bool) (name : String) : String :=
  (if enabled then "[x]" else "[ ]") ++ " " ++ name

/-- The option list built in each toggleModes iteration: one checkbox entry
per mode of allModes, marked by membership in the enabled set. -/
def modeOptions (enabledSet : List String) : List String :=
  allModes.map (fun mode => checkOption (decide (mode ∈ enabledSet)) mode)

/-- The option list built in each enableScript iteration. -/
def scriptOptions (scripts enabledSet : List String) : List String :=
  scripts.map (fun script => checkOption (decide (script ∈ enabledSet)) script)

/-- The option list built in each enableTheme iteration: marked when the
entry equals the currently enabled theme. -/
def themeOptions (themes : List String) (enabledTheme : String) : List String :=
  themes.map (fun theme => checkOption (decide (theme = enabledTheme)) theme)

/-- Embeds choice[4:]: drop the four marker characters.  Go slices bytes;
on the options the program builds, the first four bytes are ASCII, so byte
and character slicing agree. -/
def stripMark (s : String) : String := ⟨s.data.drop 4⟩

/-- Embeds the membership flip both toggle loops perform on their enabled
set: delete the name when present, insert it when absent.  The Go map with
unordered keys is modelled as a list, faithful up to membership. -/
def toggleElem (enabledSet : List String) (x : String) : List String :=
  if x ∈ enabledSet then enabledSet.filter (fun y => y != x) else x :: enabledSet

/-- One iteration body of toggleModes after a non-empty choice: parse the
mode from the selection, flip it in the enabled set, persist the new set. -/
def toggleModesStep (st : RMState) (enabledSet : List String) (choice : String) :
    RMState × List String :=
  let mode := goTrim (stripMark choice)
  let newSet := toggleElem enabledSet mode
  (setEnabledModes st newSet, newSet)

/-- One iteration body of enableScript after a non-empty choice. -/
def enableScriptStep (st : RMState) (enabledSet : List String) (choice : String) :
    RMState × List String :=
  let script := goTrim (stripMark choice)
  let newSet := toggleElem enabledSet script
  (setEnabledScripts st newSet, newSet)

/-- One iteration body of enableTheme after a non-empty choice: parse the
theme, clear the enabled theme when the selection equals it, otherwise
replace it, persist, and re-read the loop variable from the store. -/
def enableThemeStep (st : RMState) (enabledTheme choice : String) :
    RMState × String :=
  let theme := goTrim (stripMark choice)
  let newTheme := if theme = enabledTheme then "" else theme
  let st' := setEnabledTheme st newTheme
  (st', getEnabledTheme st')

/-- Runs the toggleModes loop over a list of non-empty selections, starting
from the enabled set the loop reads at entry. -/
def toggleModesIter (st : RMState) (enabledSet : List String) :
    List String → RMState × List String
  | [] => (st, enabledSet)
  | c :: cs =>
    let s := toggleModesStep st enabledSet c
    toggleModesIter s.1 s.2 cs

/-- Holds when every selection is drawn from the options displayed at its
own iteration (the menu interaction the workflow presents). -/
def goodModeChoices (enabledSet : List String) : List String → Bool
  | [] => true
  | c :: cs =>
    decide (c ∈ modeOptions enabledSet) &&
      goodModeChoices (toggleElem enabledSet (goTrim (stripMark c))) cs

theorem stripMark_checkOption (b : Bool) (n : String) :
    stripMark (checkOption b n) = n := by
  obtain ⟨nd⟩ := n
  cases b <;> rfl

theorem data_checkOption (b : Bool) (n : String) :
    (checkOption b n).data
      = (if b then ['[', 'x', ']', ' '] else ['[', ' ', ']', ' ']) ++ n.data := by
  obtain ⟨nd⟩ := n
  cases b <;> rfl

theorem allModes_valid : ∀ m ∈ allModes, ValidName m := by decide

theorem mem_of_mem_toggleElem {s : List String} {x y : String}
    (h : y ∈ toggleElem s x) : y ∈ s ∨ y = x := by
  unfold toggleElem at h
  split at h
  · exact Or.inl (List.mem_of_mem_filter h)
  · rcases List.mem_cons.mp h with rfl | h
    · exact Or.inr rfl
    · exact Or.inl h

theorem mem_toggleElem_twice (s : List String) (x y : String) :
    y ∈ toggleElem (toggleElem s x) x ↔ y ∈ s := by
  by_cases hx : x ∈ s
  · have h1 : toggleElem s x = s.filter (fun y => y != x) := by
      rw [toggleElem, if_pos hx]
    rw [h1, toggleElem,
      if_neg (by simp [List.mem_filter] : ¬ x ∈ s.filter (fun y => y != x))]
    simp only [List.mem_cons, List.mem_filter, bne_iff_ne, ne_eq, decide_eq_true_eq]
    constructor
    · rintro (rfl | ⟨h, _⟩)
      · exact hx
      · exact h
    · intro h
      by_cases hyx : y = x
      · exact Or.inl hyx
      · exact Or.inr ⟨h, hyx⟩
  · have h1 : toggleElem s x = x :: s := by
      rw [toggleElem, if_neg hx]
    rw [h1, toggleElem, if_pos (List.mem_cons_self x s)]
    simp only [List.mem_filter, List.mem_cons, bne_iff_ne, ne_eq, decide_eq_true_eq]
    constructor
    · rintro ⟨rfl | h, hne⟩
      · exact absurd rfl hne
      · exact h
    · intro h
      refine ⟨Or.inr h, ?_⟩
      intro hyx
      exact hx (hyx ▸ h)

theorem getEnabledModes_setEnabledModes (st : RMState) (l : List String) :
    getEnabledModes (setEnabledModes st l) = parseCSV (goJoin l) := rfl

/-- Loop invariant of toggleModes: disk and memory agree, the loop's
enabled-set variable is exactly the stored parsed set, and its names are
valid. -/
def SetInv (st : RMState) (enabledSet : List String) : Prop :=
  st.disk = some st.config ∧ enabledSet = getEnabledModes st ∧
    ∀ x ∈ enabledSet, ValidName x

theorem setInv_entry {st : RMState} (h : st.disk = some st.config) :
    SetInv st (getEnabledModes st) :=
  ⟨h, rfl, fun _ hx => validName_of_mem_parseCSV hx⟩

theorem setInv_step {st : RMState} {enabledSet : List String} {choice : String}
    (h : SetInv st enabledSet) (hc : choice ∈ modeOptions enabledSet) :
    SetInv (toggleModesStep st enabledSet choice).1
      (toggleModesStep st enabledSet choice).2 := by
  obtain ⟨hdisk, hset, hvalid⟩ := h
  obtain ⟨m, hm, rfl⟩ := List.mem_map.mp hc
  have hmv : ValidName m := allModes_valid m hm
  have hparse : goTrim (stripMark (checkOption (decide (m ∈ enabledSet)) m)) = m := by
    rw [stripMark_checkOption]
    exact hmv.2.1
  have hnewvalid : ∀ x ∈ toggleElem enabledSet m, ValidName x := by
    intro x hx
    rcases mem_of_mem_toggleElem hx with hx | rfl
    · exact hvalid x hx
    · exact hmv
  show SetInv (setEnabledModes st (toggleElem enabledSet
      (goTrim (stripMark (checkOption (decide (m ∈ enabledSet)) m)))))
    (toggleElem enabledSet (goTrim (stripMark (checkOption (decide (m ∈ enabledSet)) m))))
  rw [hparse]
  exact ⟨rfl, (parseCSV_goJoin _ hnewvalid).symm, hnewvalid⟩

theorem setInv_iter {st : RMState} {enabledSet : List String}
    (h : SetInv st enabledSet) :
    ∀ choices, goodModeChoices enabledSet choices = true →
      SetInv (toggleModesIter st enabledSet choices).1
        (toggleModesIter st enabledSet choices).2 := by
  intro choices
  induction choices generalizing st enabledSet with
  | nil => intro _; exact h
  | cons c cs ih =>
    intro hg
    rw [goodModeChoices, Bool.and_eq_true, decide_eq_true_eq] at hg
    obtain ⟨hc, hg⟩ := hg
    rw [toggleModesIter]
    exact ih (setInv_step h hc) hg

theorem vocab_step {st : RMState} {enabledSet : List String} {choice : String}
    (hv : ∀ x ∈ enabledSet, x ∈ allModes) (hc : choice ∈ modeOptions enabledSet) :
    ∀ x ∈ (toggleModesStep st enabledSet choice).2, x ∈ allModes := by
  obtain ⟨m, hm, rfl⟩ := List.mem_map.mp hc
  intro x hx
  rcases mem_of_mem_toggleElem hx with hx | rfl
  · exact hv x hx
  · have : goTrim (stripMark (checkOption (decide (m ∈ enabledSet)) m)) = m := by
      rw [stripMark_checkOption]
      exact (allModes_valid m hm).2.1
    rw [this]
    exact hm

theorem vocab_iter (st : RMState) {enabledSet : List String}
    (hv : ∀ x ∈ enabledSet, x ∈ allModes) :
    ∀ choices, goodModeChoices enabledSet choices = true →
      ∀ x ∈ (toggleModesIter st enabledSet choices).2, x ∈ allModes := by
  intro choices
  induction choices generalizing st enabledSet with
  | nil => intro _; exact hv
  | cons c cs ih =>
    intro hg
    rw [goodModeChoices, Bool.and_eq_true, decide_eq_true_eq] at hg
    obtain ⟨hc, hg⟩ := hg
    rw [toggleModesIter]
    exact ih (toggleModesStep st enabledSet c).1 (vocab_step hv hc) hg

/-! The addScript and addTheme workflows.  CopyEnv bundles the outcomes of
the filesystem and menu interactions the code performs: whether the source
path exists, the result of reading it, the answer to the overwrite prompt,
and the error of the final write, if any. -/

structure CopyEnv where
  srcExists : Bool
  readResult : Except String String
  overwriteAnswer : String
  writeError : Option String

/-- Outcome of an addScript or addTheme run; constructors carry the error
text where the code formats one into its popup. -/
inductive CopyOutcome where
  | emptyPath
  | missing
  | badExt
  | declined
  | copied
  | readFailed (e : String)
  | writeFailed (e : String)
deriving DecidableEq

/-- The popup message addScript shows for each outcome (none when the code
returns silently or the copy succeeds). -/
def addScriptMessage : CopyOutcome → Option String
  | .missing => some "File does not exist."
  | .badExt => some "File must end with .sh"
  | .readFailed e => some ("Error copying file:\n" ++ e)
  | .writeFailed e => some ("Error copying file:\n" ++ e)
  | _ => none

/-- The popup message addTheme shows for each outcome. -/
def addThemeMessage : CopyOutcome → Option String
  | .missing => some "File does not exist."
  | .badExt => some "File must end with .rasi"
  | .readFailed e => some ("Error copying file:\n" ++ e)
  | .writeFailed e => some ("Error copying file:\n" ++ e)
  | _ => none

/-- Embeds Go strings.HasSuffix at the character level. -/
def hasSuffix (s suf : String) : Bool := List.isSuffixOf suf.data s.data

/-- A directory listing: pairs of filename and file contents. -/
abbrev DirListing := List (String × String)

/-- Embeds ioutil.WriteFile into a directory listing: replace the file's
contents when the name exists, append the file otherwise. -/
def writeEntry (dir : DirListing) (name content : String) : DirListing :=
  if dir.any (fun e => e.1 == name) then
    dir.map (fun e => if e.1 == name then (name, content) else e)
  else dir ++ [(name, content)]

/-- Embeds filepath.Base for slash-separated paths: strip trailing slashes,
then keep everything after the last slash; "." for the empty path and "/"
for an all-slash path. -/
def filepathBase (p : String) : String :=
  if p = "" then "."
  else
    let rev := p.data.reverse.dropWhile (fun c => c == '/')
    if rev = [] then "/"
    else ⟨(rev.takeWhile (fun c => c != '/')).reverse⟩

/-- Embeds addScript.  The menus it opens only read the enabled theme, so
every branch leaves the settings state untouched; the function returns the
state, the outcome, and the scripts directory after the run.  A failed
write is modelled as leaving the directory unchanged. -/
def addScript (st : RMState) (path : String) (env : CopyEnv) (dir : DirListing) :
    RMState × CopyOutcome × DirListing :=
  if path = "" then (st, .emptyPath, dir)
  else if env.srcExists = false then (st, .missing, dir)
  else if hasSuffix path ".sh" = false then (st, .badExt, dir)
  else if dir.any (fun e => e.1 == filepathBase path)
      && env.overwriteAnswer != "Yes" then
    (st, .declined, dir)
  else
    match env.readResult with
    | .error e => (st, .readFailed e, dir)
    | .ok content =>
      match env.writeError with
      | some e => (st, .writeFailed e, dir)
      | none => (st, .copied, writeEntry dir (filepathBase path) content)

/-- Embeds addTheme: identical control flow with the .rasi extension check
and the themes directory. -/
def addTheme (st : RMState) (path : String) (env : CopyEnv) (dir : DirListing) :
    RMState × CopyOutcome × DirListing :=
  if path = "" then (st, .emptyPath, dir)
  else if env.srcExists = false then (st, .missing, dir)
  else if hasSuffix path ".rasi" = false then (st, .badExt, dir)
  else if dir.any (fun e => e.1 == filepathBase path)
      && env.overwriteAnswer != "Yes" then
    (st, .declined, dir)
  else
    match env.readResult with
    | .error e => (st, .readFailed e, dir)
    | .ok content =>
      match env.writeError with
      | some e => (st, .writeFailed e, dir)
      | none => (st, .copied, writeEntry dir (filepathBase path) content)

/-! The claims. -/

/-- C1: writing enabled modes, scripts and theme with the setters (which
save to the config file), reloading with loadConfig and reading back with
the getters reproduces the same enabled modes, enabled scripts and theme,
for valid names (non-empty, comma-free, unchanged by whitespace trimming);
the mode and script lists are recovered exactly, hence so are their sets,
and the theme is recovered for every theme string. -/
theorem save_load_roundtrip (st : RMState) (modes scripts : List String)
    (theme : String) (hm : ∀ m ∈ modes, ValidName m)
    (hs : ∀ s ∈ scripts, ValidName s) :
    getEnabledModes (loadConfig (setEnabledTheme (setEnabledScripts
        (setEnabledModes st modes) scripts) theme)) = modes ∧
    getEnabledScripts (loadConfig (setEnabledTheme (setEnabledScripts
        (setEnabledModes st modes) scripts) theme)) = scripts ∧
    getEnabledTheme (loadConfig (setEnabledTheme (setEnabledScripts
        (setEnabledModes st modes) scripts) theme)) = theme := by
  refine ⟨?_, ?_, rfl⟩
  · show parseCSV (goJoin modes) = modes
    exact parseCSV_goJoin modes hm
  · show parseCSV (goJoin scripts) = scripts
    exact parseCSV_goJoin scripts hs

/-- C1 witness: the round trip at a concrete valid settings value. -/
theorem save_load_roundtrip_witness :
    getEnabledModes (loadConfig (setEnabledTheme (setEnabledScripts
        (setEnabledModes ⟨some defaultIni, defaultIni⟩ ["run", "key"]) ["a.sh"])
        "t.rasi")) = ["run", "key"] ∧
    getEnabledScripts (loadConfig (setEnabledTheme (setEnabledScripts
        (setEnabledModes ⟨some defaultIni, defaultIni⟩ ["run", "key"]) ["a.sh"])
        "t.rasi")) = ["a.sh"] ∧
    getEnabledTheme (loadConfig (setEnabledTheme (setEnabledScripts
        (setEnabledModes ⟨some defaultIni, defaultIni⟩ ["run", "key"]) ["a.sh"])
        "t.rasi")) = "t.rasi" :=
  save_load_roundtrip ⟨some defaultIni, defaultIni⟩ ["run", "key"] ["a.sh"]
    "t.rasi" (by decide) (by decide)

/-- C2: in every toggleModes iteration reached by selections drawn from the
displayed options, the displayed option list is exactly one checkbox entry
per mode of the six-name vocabulary, in order and with nothing else, and
the entry is marked [x] exactly when the mode is in the persisted
enabled-modes set (the on-disk file agrees with the in-memory config, whose
parsed modes drive the markers). -/
theorem toggleModes_display_invariant (st : RMState) (choices : List String)
    (hd : st.disk = some st.config)
    (hg : goodModeChoices (getEnabledModes st) choices = true) :
    (toggleModesIter st (getEnabledModes st) choices).1.disk
        = some (toggleModesIter st (getEnabledModes st) choices).1.config ∧
    modeOptions (toggleModesIter st (getEnabledModes st) choices).2
      = allModes.map (fun m => checkOption
          (decide (m ∈ getEnabledModes
            (toggleModesIter st (getEnabledModes st) choices).1)) m) := by
  obtain ⟨h1, h2, _⟩ := setInv_iter (setInv_entry hd) choices hg
  refine ⟨h1, ?_⟩
  rw [modeOptions, ← h2]

/-- C2 witness: one iteration from the default configuration, selecting the
displayed entry of the ssh mode. -/
theorem toggleModes_display_invariant_witness :
    (toggleModesIter ⟨some defaultIni, defaultIni⟩
        (getEnabledModes ⟨some defaultIni, defaultIni⟩) ["[ ] ssh"]).1.disk
      = some (toggleModesIter ⟨some defaultIni, defaultIni⟩
        (getEnabledModes ⟨some defaultIni, defaultIni⟩) ["[ ] ssh"]).1.config ∧
    modeOptions (toggleModesIter ⟨some defaultIni, defaultIni⟩
        (getEnabledModes ⟨some defaultIni, defaultIni⟩) ["[ ] ssh"]).2
      = allModes.map (fun m => checkOption
          (decide (m ∈ getEnabledModes
            (toggleModesIter ⟨some defaultIni, defaultIni⟩
              (getEnabledModes ⟨some defaultIni, defaultIni⟩) ["[ ] ssh"]).1)) m) :=
  toggleModes_display_invariant ⟨some defaultIni, defaultIni⟩ ["[ ] ssh"] rfl
    (by decide)

/-- C3 counterexample: with no theme enabled, selecting the displayed entry
of the listed theme named " a.rasi" (leading space, a legal .rasi filename)
sets the enabled theme to "a.rasi", which is not the selected theme, because
the choice parser trims whitespace. -/
theorem enableTheme_select_cex :
    (" a.rasi" : String) ≠ "" ∧
    (enableThemeStep ⟨some defaultIni, defaultIni⟩ ""
        (checkOption (decide ((" a.rasi" : String) = "")) " a.rasi")).2
      ≠ " a.rasi" ∧
    (enableThemeStep ⟨some defaultIni, defaultIni⟩ ""
        (checkOption (decide ((" a.rasi" : String) = "")) " a.rasi")).2
      = "a.rasi" := by decide

/-- C3 (amended): in the enableTheme workflow, selecting the displayed
entry of a listed theme whose name is unchanged by whitespace trimming
clears the enabled theme when it equals the current one and otherwise
replaces it with exactly the selected theme (never accumulating), and in
both cases the new value is persisted (disk equals the in-memory config)
before the loop continues. -/
theorem enableTheme_select (st : RMState) (current t : String)
    (ht : goTrim t = t) :
    ((t = current →
      (enableThemeStep st current (checkOption (decide (t = current)) t)).2 = "" ∧
      getEnabledTheme
        (enableThemeStep st current (checkOption (decide (t = current)) t)).1 = "") ∧
     (t ≠ current →
      (enableThemeStep st current (checkOption (decide (t = current)) t)).2 = t ∧
      getEnabledTheme
        (enableThemeStep st current (checkOption (decide (t = current)) t)).1 = t)) ∧
    (enableThemeStep st current (checkOption (decide (t = current)) t)).1.disk
      = some (enableThemeStep st current
          (checkOption (decide (t = current)) t)).1.config := by
  have hp : goTrim (stripMark (checkOption (decide (t = current)) t)) = t := by
    rw [stripMark_checkOption]
    exact ht
  refine ⟨⟨?_, ?_⟩, rfl⟩
  · intro hteq
    simp only [enableThemeStep, hp]
    rw [if_pos hteq]
    exact ⟨rfl, rfl⟩
  · intro htne
    simp only [enableThemeStep, hp]
    rw [if_neg htne]
    exact ⟨rfl, rfl⟩

/-- C3 witness: selecting theme b.rasi while no theme is enabled replaces
the enabled theme, and the value is persisted. -/
theorem enableTheme_select_witness :
    ((("b.rasi" : String) = "" →
      (enableThemeStep ⟨some defaultIni, defaultIni⟩ ""
        (checkOption (decide (("b.rasi" : String) = "")) "b.rasi")).2 = "" ∧
      getEnabledTheme (enableThemeStep ⟨some defaultIni, defaultIni⟩ ""
        (checkOption (decide (("b.rasi" : String) = "")) "b.rasi")).1 = "") ∧
     (("b.rasi" : String) ≠ "" →
      (enableThemeStep ⟨some defaultIni, defaultIni⟩ ""
        (checkOption (decide (("b.rasi" : String) = "")) "b.rasi")).2 = "b.rasi" ∧
      getEnabledTheme (enableThemeStep ⟨some defaultIni, defaultIni⟩ ""
        (checkOption (decide (("b.rasi" : String) = "")) "b.rasi")).1 = "b.rasi")) ∧
    (enableThemeStep ⟨some defaultIni, defaultIni⟩ ""
        (checkOption (decide (("b.rasi" : String) = "")) "b.rasi")).1.disk
      = some (enableThemeStep ⟨some defaultIni, defaultIni⟩ ""
        (checkOption (decide (("b.rasi" : String) = "")) "b.rasi")).1.config :=
  enableTheme_select ⟨some defaultIni, defaultIni⟩ "" "b.rasi" (by decide)

/-- C4: performing the toggle step of toggleModes, or of enableScript,
twice in succession on the same selection yields an enabled set with the
same contents (the same members) as the original set. -/
theorem toggle_step_twice_same_contents (st : RMState)
    (enabledSet : List String) (choice : String) :
    (∀ y, y ∈ (toggleModesStep (toggleModesStep st enabledSet choice).1
        (toggleModesStep st enabledSet choice).2 choice).2 ↔ y ∈ enabledSet) ∧
    (∀ y, y ∈ (enableScriptStep (enableScriptStep st enabledSet choice).1
        (enableScriptStep st enabledSet choice).2 choice).2 ↔ y ∈ enabledSet) :=
  ⟨fun y => mem_toggleElem_twice enabledSet _ y,
   fun y => mem_toggleElem_twice enabledSet _ y⟩

/-- C5: starting with an absent settings file, initialization (the
ensureConfigDirs then loadConfig sequence of NewRofiManager) yields enabled
modes run, drun, window, no enabled scripts and an empty theme, and writes
exactly these defaults to the file on disk, whatever the initial in-memory
value was. -/
theorem defaults_when_config_absent (c : IniFile) :
    getEnabledModes (loadConfig (ensureConfigDirs ⟨none, c⟩))
      = ["run", "drun", "window"] ∧
    getEnabledScripts (loadConfig (ensureConfigDirs ⟨none, c⟩)) = [] ∧
    getEnabledTheme (loadConfig (ensureConfigDirs ⟨none, c⟩)) = "" ∧
    (loadConfig (ensureConfigDirs ⟨none, c⟩)).disk = some defaultIni := by
  refine ⟨?_, rfl, rfl, rfl⟩
  show parseCSV "run,drun,window" = ["run", "drun", "window"]
  decide

/-- C6 counterexample: the non-existent path notes.txt ends in .txt, yet
addScript rejects it with the "File does not exist." popup, not with
"File must end with .sh". -/
theorem addScript_txt_cex :
    hasSuffix "notes.txt" ".txt" = true ∧
    (addScript ⟨some defaultIni, defaultIni⟩ "notes.txt"
        ⟨false, Except.ok "", "", none⟩ []).2.1 = CopyOutcome.missing ∧
    addScriptMessage CopyOutcome.missing = some "File does not exist." ∧
    addScriptMessage CopyOutcome.missing ≠ some "File must end with .sh" := by
  decide

/-- C6 (amended): for every existing input path ending in .txt, addScript
rejects it with the "File must end with .sh" popup, no file is copied, and
the scripts directory and settings state are unchanged. -/
theorem addScript_txt_rejected (st : RMState) (path : String) (env : CopyEnv)
    (dir : DirListing) (hex : env.srcExists = true)
    (htxt : hasSuffix path ".txt" = true) :
    addScript st path env dir = (st, CopyOutcome.badExt, dir) ∧
    addScriptMessage CopyOutcome.badExt = some "File must end with .sh" := by
  rw [hasSuffix] at htxt
  have hsuf : (String.data ".txt") <:+ path.data :=
    List.isSuffixOf_iff_suffix.mp htxt
  have hne : path ≠ "" := by
    intro h0
    rw [h0] at hsuf
    have h4 := hsuf.length_le
    simp at h4
  have hnsh : hasSuffix path ".sh" = false := by
    by_contra hc
    rw [Bool.not_eq_false, hasSuffix] at hc
    have hs2 : (String.data ".sh") <:+ path.data :=
      List.isSuffixOf_iff_suffix.mp hc
    rcases List.suffix_or_suffix_of_suffix hs2 hsuf with h | h
    · exact absurd h (by decide)
    · exact absurd h (by decide)
  refine ⟨?_, rfl⟩
  rw [addScript, if_neg hne, hex, if_neg (by decide : ¬ (true = false)),
    if_pos hnsh]

/-- C6 witness: an existing .txt path is rejected with the extension
message and an empty scripts directory stays empty. -/
theorem addScript_txt_rejected_witness :
    addScript ⟨some defaultIni, defaultIni⟩ "a.txt"
        ⟨true, Except.ok "x", "", none⟩ []
      = (⟨some defaultIni, defaultIni⟩, CopyOutcome.badExt, []) ∧
    addScriptMessage CopyOutcome.badExt = some "File must end with .sh" :=
  addScript_txt_rejected ⟨some defaultIni, defaultIni⟩ "a.txt"
    ⟨true, Except.ok "x", "", none⟩ [] (by decide) (by decide)

/-- C7: for an existing .sh source whose basename already names a file in
the scripts directory, any overwrite answer other than Yes makes addScript
return without writing: the outcome is the silent declined return and the
directory (and state) are unchanged. -/
theorem addScript_overwrite_declined (st : RMState) (path : String)
    (env : CopyEnv) (dir : DirListing) (hex : env.srcExists = true)
    (hsh : hasSuffix path ".sh" = true)
    (hdup : dir.any (fun e => e.1 == filepathBase path) = true)
    (hans : env.overwriteAnswer ≠ "Yes") :
    addScript st path env dir = (st, CopyOutcome.declined, dir) := by
  have hne : path ≠ "" := by
    intro h0
    rw [hasSuffix, h0] at hsh
    have hs2 : (String.data ".sh") <:+ ("" : String).data :=
      List.isSuffixOf_iff_suffix.mp hsh
    have h4 := hs2.length_le
    simp at h4
  rw [addScript, if_neg hne, hex, if_neg (by decide : ¬ (true = false)), hsh,
    if_neg (by decide : ¬ (true = false)),
    if_pos (by rw [hdup, Bool.true_and, bne_iff_ne]; exact hans)]

/-- C7 witness: answering No to the overwrite prompt for a.sh, already
present in the scripts directory, leaves the directory unchanged. -/
theorem addScript_overwrite_declined_witness :
    addScript ⟨some defaultIni, defaultIni⟩ "/tmp/a.sh"
        ⟨true, Except.ok "new", "No", none⟩ [("a.sh", "old")]
      = (⟨some defaultIni, defaultIni⟩, CopyOutcome.declined, [("a.sh", "old")]) :=
  addScript_overwrite_declined ⟨some defaultIni, defaultIni⟩ "/tmp/a.sh"
    ⟨true, Except.ok "new", "No", none⟩ [("a.sh", "old")] (by decide) (by decide)
    (by decide) (by decide)

/-- C8 counterexample: a loaded configuration can store a mode name outside
the fixed six-name vocabulary, and getEnabledModes returns it unchanged, so
the enabled-modes set is not always drawn from the vocabulary. -/
theorem modes_vocab_cex :
    "custommode" ∈ getEnabledModes
        ⟨some ⟨"custommode", "", ""⟩, ⟨"custommode", "", ""⟩⟩ ∧
    "custommode" ∉ allModes := by decide

/-- C8 (amended): provided every stored enabled mode lies in the six-name
vocabulary, membership is preserved: after any number of toggleModes
iterations whose selections come from the displayed options, every name in
the loop's enabled set and every name getEnabledModes returns from the
persisted configuration belongs to allModes. -/
theorem toggleModes_vocab_closed (st : RMState) (choices : List String)
    (hd : st.disk = some st.config)
    (hv : ∀ m ∈ getEnabledModes st, m ∈ allModes)
    (hg : goodModeChoices (getEnabledModes st) choices = true) :
    (∀ m ∈ (toggleModesIter st (getEnabledModes st) choices).2, m ∈ allModes) ∧
    (∀ m ∈ getEnabledModes (toggleModesIter st (getEnabledModes st) choices).1,
      m ∈ allModes) := by
  have hset := vocab_iter st hv choices hg
  have hinv := setInv_iter (setInv_entry hd) choices hg
  refine ⟨hset, ?_⟩
  rw [← hinv.2.1]
  exact hset

/-- C8 witness: from the default configuration, toggling run keeps every
stored mode inside the vocabulary. -/
theorem toggleModes_vocab_closed_witness :
    (∀ m ∈ (toggleModesIter ⟨some defaultIni, defaultIni⟩
        (getEnabledModes ⟨some defaultIni, defaultIni⟩) ["[x] run"]).2,
      m ∈ allModes) ∧
    (∀ m ∈ getEnabledModes (toggleModesIter ⟨some defaultIni, defaultIni⟩
        (getEnabledModes ⟨some defaultIni, defaultIni⟩) ["[x] run"]).1,
      m ∈ allModes) :=
  toggleModes_vocab_closed ⟨some defaultIni, defaultIni⟩ ["[x] run"] rfl
    (by decide) (by decide)

theorem checkOption_marker (b : Bool) (n : String) :
    4 ≤ (checkOption b n).data.length ∧
      ((checkOption b n).data.take 4 = ['[', 'x', ']', ' '] ∨
       (checkOption b n).data.take 4 = ['[', ' ', ']', ' ']) := by
  cases b
  · rw [data_checkOption]
    exact ⟨by simp, Or.inr rfl⟩
  · rw [data_checkOption]
    exact ⟨by simp, Or.inl rfl⟩

/-- C9: every option displayed by toggleModes, enableScript and
enableTheme starts with a four-character ASCII checkbox marker ("[x] " or
"[ ] ") and is therefore at least four characters long, so for a non-empty
selection equal to a displayed option the fixed-offset slice choice[4:] is
in bounds and the parsing step cannot panic. -/
theorem displayed_option_marker_shape (enabledSet scripts eset themes : List String)
    (current opt : String)
    (h : opt ∈ modeOptions enabledSet ∨ opt ∈ scriptOptions scripts eset ∨
      opt ∈ themeOptions themes current) :
    4 ≤ opt.data.length ∧
      (opt.data.take 4 = ['[', 'x', ']', ' '] ∨
       opt.data.take 4 = ['[', ' ', ']', ' ']) := by
  rcases h with h | h | h
  · obtain ⟨n, _, rfl⟩ := List.mem_map.mp h
    exact checkOption_marker _ _
  · obtain ⟨n, _, rfl⟩ := List.mem_map.mp h
    exact checkOption_marker _ _
  · obtain ⟨n, _, rfl⟩ := List.mem_map.mp h
    exact checkOption_marker _ _

/-- C9 witness: the run entry of the toggleModes menu with nothing
enabled. -/
theorem displayed_option_marker_shape_witness :
    4 ≤ ("[ ] run" : String).data.length ∧
      (("[ ] run" : String).data.take 4 = ['[', 'x', ']', ' '] ∨
       ("[ ] run" : String).data.take 4 = ['[', ' ', ']', ' ']) :=
  displayed_option_marker_shape [] [] [] [] "" "[ ] run" (Or.inl (by decide))

/-- C10: addScript and addTheme never modify the persisted settings: on
every execution path the settings state is returned untouched, so the
enabled modes, enabled scripts and enabled theme are the same after the
operation as before it. -/
theorem add_preserves_settings (st : RMState) (path : String) (env : CopyEnv)
    (dir : DirListing) :
    (addScript st path env dir).1 = st ∧ (addTheme st path env dir).1 = st ∧
    getEnabledModes (addScript st path env dir).1 = getEnabledModes st ∧
    getEnabledScripts (addScript st path env dir).1 = getEnabledScripts st ∧
    getEnabledTheme (addScript st path env dir).1 = getEnabledTheme st ∧
    getEnabledModes (addTheme st path env dir).1 = getEnabledModes st ∧
    getEnabledScripts (addTheme st path env dir).1 = getEnabledScripts st ∧
    getEnabledTheme (addTheme st path env dir).1 = getEnabledTheme st := by
  have hs : (addScript st path env dir).1 = st := by
    rw [addScript]
    repeat' split
    all_goals rfl
  have ht : (addTheme st path env dir).1 = st := by
    rw [addTheme]
    repeat' split
    all_goals rfl
  exact ⟨hs, ht, by rw [hs], by rw [hs], by rw [hs], by rw [ht], by rw [ht],
    by rw [ht]⟩

end RofiManager
